import Mathlib

/-!
# Verification of the 3-Patti Teen Patti engine

Shallow embedding of the core of the repository:

* `src/backend/gameLogic.js` — cards, hand evaluator and the per-room round
  state machine (`Card`, `Player`, `Game`).  JavaScript numbers are modelled
  by `ℚ`: every arithmetic operation the code performs on chip amounts
  (addition, subtraction, `Math.min`, `Math.max`, multiplication by constants
  and the halving `currentBet / 2`) is exact on IEEE doubles in the ranges the
  game uses, and `ℚ` reproduces all of them exactly, including the fractional
  results of `/ 2` on odd stakes.  Player ids (JS strings / uuids compared
  with `===`) are modelled as `Nat` with decidable equality; `name` and
  `socketId` fields are presentation-only and omitted.
* the Solidity contract `TeenPattiGame` (src/unnamed/part_000) — `uint256`
  arithmetic is modelled with `Nat`; Solidity 0.8 checked arithmetic reverts
  instead of wrapping, so on every successful execution the `Nat` model and
  the EVM agree, and `/` is floor division in both.  Token transfers are
  modelled by recording the transferred amounts in the result.
* the settlement verification gate and the `show` handler of
  `src/backend/server.js`.
-/

namespace ThreePatti

/-! ## Cards (gameLogic.js `Card`) -/

/-- A playing card.  `rank` is the index of the card's rank string in
`RANKS = ['2',…,'10','J','Q','K','A']` (so `0` = "2", …, `12` = "A") and
`suit` is the index in `SUITS`.  `Card.getValue()` returns exactly this
rank index. -/
structure Card where
  rank : Nat
  suit : Nat
deriving Repr, DecidableEq

/-- `Card.getValue`: `RANKS.indexOf(this.rank)`.  The result is an `Int`
because hand compare keys can contain `-1` (the A-2-3 special case in
`Game.isSequence`). -/
def Card.getValue (c : Card) : Int := c.rank

/-! ## Hand rankings (gameLogic.js `HAND_RANKINGS`) -/

def HIGH_CARD : Nat := 0
def PAIR : Nat := 1
def COLOR : Nat := 2
def SEQUENCE : Nat := 3
def PURE_SEQUENCE : Nat := 4
/-- `HAND_RANKINGS.TRIO` (renamed here only to satisfy naming rules). -/
def TRIO_RANK : Nat := 5

/-! ## Hand evaluator (gameLogic.js `Game.evaluateHand` and friends) -/

/-- One insertion step of sorting cards by descending `getValue`; together
with `sortCardsDesc` this models
`[...cards].sort((a, b) => b.getValue() - a.getValue())`.
(For the evaluator only the sorted value list and the multiset of suits
matter, so any correct descending sort is an exact model.) -/
def insertDesc (c : Card) : List Card → List Card
  | [] => [c]
  | d :: ds => if c.getValue ≤ d.getValue then d :: insertDesc c ds else c :: d :: ds

/-- Sort a hand by descending card value. -/
def sortCardsDesc (cs : List Card) : List Card := cs.foldr insertDesc []

/-- Result record of `Game.isSequence`. -/
structure SeqResult where
  isSeq : Bool
  compareValues : List Int
deriving Repr, DecidableEq

/-- `Game.isSequence(values)`: values arrive sorted descending; A-2-3
(`[12, 1, 0]`) is special-cased to compare values `[-1, -1, -1]` so that it
ranks below every other sequence; a regular sequence is a descending run of
step 1. -/
def isSequence (values : List Int) : SeqResult :=
  match values with
  | [v0, v1, v2] =>
    if v0 = 12 ∧ v1 = 1 ∧ v2 = 0 then
      { isSeq := true, compareValues := [-1, -1, -1] }
    else if v0 = v1 + 1 ∧ v1 = v2 + 1 then
      { isSeq := true, compareValues := [v0, v1, v2] }
    else
      { isSeq := false, compareValues := [v0, v1, v2] }
  | vs => { isSeq := false, compareValues := vs }

/-- Result record of `Game.evaluateHand`: a category from `HAND_RANKINGS`
plus the tie-break key. -/
structure HandEval where
  rank : Nat
  values : List Int
deriving Repr, DecidableEq

/-- `Game.evaluateHand(cards)`, branch for branch: Trio, then sequence
detection (pure / plain), then colour, then the three pair sub-cases
(pair-high kept as is, pair-low and pair-split rearranged to
`[pairRank, pairRank, kicker]`), then high card. -/
def evaluateHand (cards : List Card) : HandEval :=
  let sortedCards := sortCardsDesc cards
  let values := sortedCards.map Card.getValue
  let suits := sortedCards.map Card.suit
  match values, suits with
  | [v0, v1, v2], [s0, s1, s2] =>
    if v0 = v1 ∧ v1 = v2 then
      { rank := TRIO_RANK, values := [v0, v1, v2] }
    else
      let seqR := isSequence [v0, v1, v2]
      let isFlush : Bool := s0 = s1 ∧ s1 = s2
      if seqR.isSeq ∧ isFlush then
        { rank := PURE_SEQUENCE, values := seqR.compareValues }
      else if seqR.isSeq then
        { rank := SEQUENCE, values := seqR.compareValues }
      else if isFlush then
        { rank := COLOR, values := [v0, v1, v2] }
      else if v0 = v1 then
        { rank := PAIR, values := [v0, v1, v2] }
      else if v1 = v2 then
        { rank := PAIR, values := [v1, v2, v0] }
      else if v0 = v2 then
        { rank := PAIR, values := [v0, v2, v1] }
      else
        { rank := HIGH_CARD, values := [v0, v1, v2] }
  | vs, _ => { rank := HIGH_CARD, values := vs }

/-- The element-wise key comparison loop of `Game.compareHands`:
`some true` = first key greater at the first difference, `some false` =
second greater, `none` = keys fully equal (a tie). -/
def cmpValues : List Int → List Int → Option Bool
  | a :: as, b :: bs => if a ≠ b then some (decide (b < a)) else cmpValues as bs
  | _, _ => none

/-- `Game.compareHands` on the two players' card lists: category rank first,
then the keys element-wise; `none` is a tie. -/
def compareCards (cards1 cards2 : List Card) : Option Bool :=
  let hand1 := evaluateHand cards1
  let hand2 := evaluateHand cards2
  if hand1.rank ≠ hand2.rank then some (decide (hand2.rank < hand1.rank))
  else cmpValues hand1.values hand2.values

/-! ## Players (gameLogic.js `Player`) -/

/-- A player.  `id` models the JS string id (uuid or wallet address), an
opaque identifier compared with `===`; `name`/`socketId` are
presentation-only and omitted.  Chip amounts are `ℚ` (see the file header). -/
structure Player where
  id : Nat
  cards : List Card
  chips : ℚ
  currentBet : ℚ
  totalBet : ℚ
  isActive : Bool
  isFolded : Bool
  isBlind : Bool
  hasSeenCards : Bool
deriving Repr, DecidableEq

/-- `Player.addCard(card)`: push onto the hand. -/
def Player.addCard (p : Player) (c : Card) : Player :=
  { p with cards := p.cards ++ [c] }

/-- `Player.seeCards()`. -/
def Player.seeCards (p : Player) : Player :=
  { p with hasSeenCards := true, isBlind := false }

/-- `Player.fold()`. -/
def Player.fold (p : Player) : Player :=
  { p with isFolded := true, isActive := false }

/-- `Player.bet(amount)`: clamp to the remaining chips (`Math.min`), deduct,
record, and return the amount actually bet together with the updated player. -/
def Player.bet (p : Player) (amount : ℚ) : ℚ × Player :=
  let betAmount := min amount p.chips
  (betAmount,
   { p with chips := p.chips - betAmount, currentBet := betAmount,
            totalBet := p.totalBet + betAmount })

/-- `Player.reset()`: fresh-round state (cards cleared, bets zeroed, blind). -/
def Player.reset (p : Player) : Player :=
  { p with cards := [], currentBet := 0, totalBet := 0, isActive := true,
           isFolded := false, isBlind := true, hasSeenCards := false }

/-! ## The room/game state machine (gameLogic.js `Game`) -/

/-- The per-room game state.  The constructor defaults are
`pot = 0, currentBet = 0, minBet = 10, currentPlayerIndex = 0,
dealerIndex = 0, gameStarted = false, minPlayers = 2, maxPlayers = 6,
roundNumber = 0`; `deck` holds the cards remaining to deal (dealt from the
tail, like `Array.pop`). -/
structure Game where
  players : List Player
  deck : List Card
  pot : ℚ
  currentBet : ℚ
  minBet : ℚ
  currentPlayerIndex : Nat
  dealerIndex : Nat
  gameStarted : Bool
  minPlayers : Nat
  maxPlayers : Nat
  roundNumber : Nat
deriving Repr, DecidableEq

/-- `Game.getPlayer(playerId)`: `players.find(p => p.id === playerId)`. -/
def Game.getPlayer (g : Game) (pid : Nat) : Option Player :=
  g.players.find? (fun p => p.id = pid)

/-- `Game.getCurrentPlayer()`: `players[currentPlayerIndex]` (`none` models
JS `undefined` on an out-of-range index). -/
def Game.getCurrentPlayer (g : Game) : Option Player :=
  g.players.get? g.currentPlayerIndex

/-- `Game.getActivePlayers()`. -/
def Game.getActivePlayers (g : Game) : List Player :=
  g.players.filter (fun p => p.isActive && !p.isFolded)

/-- Replace the first player in the list whose id is `pid` — exactly the
object that `getPlayer` returns and that the JS code mutates in place. -/
def setFirst (pid : Nat) (p' : Player) : List Player → List Player
  | [] => []
  | p :: ps => if p.id = pid then p' :: ps else p :: setFirst pid p' ps

/-- Apply `f` to the first player in the list whose id is `pid`. -/
def updateFirst (pid : Nat) (f : Player → Player) : List Player → List Player
  | [] => []
  | p :: ps => if p.id = pid then f p :: ps else p :: updateFirst pid f ps

/-- The do-while scan of `Game.nextPlayer`: starting from `idx`, step to
`(idx+1) % players.length` repeatedly until a non-folded player is found,
giving up (JS: `throw`) after `fuel` steps. -/
def findNextIdx (players : List Player) : Nat → Nat → Option Nat
  | _, 0 => none
  | idx, fuel + 1 =>
    let j := (idx + 1) % players.length
    match players.get? j with
    | none => none
    | some p => if p.isFolded then findNextIdx players j fuel else some j

/-- `Game.nextPlayer()`: `none` models the two `throw new Error` paths (the
safety check with ≤ 1 active players, and the exhausted cyclic scan). -/
def Game.nextPlayer (g : Game) : Option Game :=
  if g.getActivePlayers.length ≤ 1 then none
  else
    (findNextIdx g.players g.currentPlayerIndex g.players.length).map
      (fun j => { g with currentPlayerIndex := j, roundNumber := g.roundNumber + 1 })

/-- The structured `{success: false, error}` rejections of
`Game.playerAction`; payloads carry the data interpolated into the JS
message strings. -/
inductive GameError
  | notYourTurn
  | potLimitReached
  | allInRequired (chips : ℚ)
  | invalidBetAmount (minB maxB : ℚ)
  | invalidAction
deriving Repr, DecidableEq

/-- Outcome of `Game.playerAction`: a successful `{success: true}` return
with the new state, a structured rejection, or a thrown JS exception
(`nextPlayer` finding no valid player, or reading `.id` of `undefined`). -/
inductive ActionResult
  | ok (g : Game)
  | err (e : GameError)
  | thrown
deriving Repr, DecidableEq

/-- The shared tail of the `bet`/`chaal` case:
`const betAmount = player.bet(amount); this.pot += betAmount;
this.nextPlayer(); return {success: true}`. -/
def betTail (g : Game) (playerId : Nat) (player : Player) (amount : ℚ) : ActionResult :=
  let (betAmount, player') := player.bet amount
  let g' := { g with players := setFirst playerId player' g.players,
                     pot := g.pot + betAmount }
  match g'.nextPlayer with
  | some g'' => .ok g''
  | none => .thrown

/-- `Game.playerAction(playerId, action, amount)`, branch for branch.  The
turn gate compares only ids — there is no `gameStarted` check anywhere in
the function. -/
def Game.playerAction (g : Game) (playerId : Nat) (action : String) (amount : ℚ) :
    ActionResult :=
  match g.getPlayer playerId with
  | none => .err .notYourTurn
  | some player =>
    match g.getCurrentPlayer with
    | none => .thrown
    | some current =>
      if player.id ≠ current.id then .err .notYourTurn
      else if action = "fold" ∨ action = "pack" then
        let g' := { g with players := setFirst playerId player.fold g.players }
        match g'.nextPlayer with
        | some g'' => .ok g''
        | none => .thrown
      else if action = "see" then
        .ok { g with players := setFirst playerId player.seeCards g.players }
      else if action = "bet" ∨ action = "chaal" then
        let POT_LIMIT := g.minBet * 1024
        if POT_LIMIT ≤ g.pot then .err .potLimitReached
        else
          let requiredAmount := if player.isBlind then g.currentBet / 2 else g.currentBet
          let minB := requiredAmount
          let maxB := requiredAmount * 2
          if player.chips < minB then
            if amount ≠ player.chips then .err (.allInRequired player.chips)
            else betTail g playerId player amount
          else
            if amount ≠ minB ∧ amount ≠ maxB then .err (.invalidBetAmount minB maxB)
            else
              let newSeenStake := if player.isBlind then amount * 2 else amount
              betTail { g with currentBet := max g.currentBet newSeenStake }
                playerId player amount
      else .err .invalidAction

/-- `Game.canStartGame()`. -/
def Game.canStartGame (g : Game) : Bool :=
  g.minPlayers ≤ g.players.length && !g.gameStarted

/-- `Deck.deal()`: pop from the tail of the deck (`undefined` on empty). -/
def deal (cs : List Card) : Option Card × List Card :=
  (cs.getLast?, cs.dropLast)

/-- One round-robin dealing pass: each player in order draws one card
(`player.addCard(this.deck.deal())`; here startGame always has ≥ 3×6 = 18
cards available, so the empty-deck case never adds a card). -/
def dealRound : List Player → List Card → List Player × List Card
  | [], deckCards => ([], deckCards)
  | p :: ps, deckCards =>
    match deal deckCards with
    | (some c, deck') => let r := dealRound ps deck'; ((p.addCard c) :: r.1, r.2)
    | (none, deck') => let r := dealRound ps deck'; (p :: r.1, r.2)

/-- The ante-collection loop of `startGame`:
`const ante = player.bet(this.minBet); this.pot += ante` for every player in
order; returns the updated players and the total added to the pot. -/
def collectAntes (minBet : ℚ) : List Player → List Player × ℚ
  | [] => ([], 0)
  | p :: ps =>
    let (a, p') := p.bet minBet
    let r := collectAntes minBet ps
    (p' :: r.1, a + r.2)

/-- `Game.startGame()`.  `shuffled` is the freshly shuffled 52-card deck
produced by `this.deck.reset()` (the Fisher–Yates permutation is the only
randomness and is passed in as a parameter).  `none` models `return false`
(no mutation happens before the `canStartGame` check in the JS code). -/
def Game.startGame (g : Game) (shuffled : List Card) : Option Game :=
  if ¬ g.canStartGame then none
  else
    let players0 := g.players.map Player.reset
    let d1 := dealRound players0 shuffled
    let d2 := dealRound d1.1 d1.2
    let d3 := dealRound d2.1 d2.2
    let anted := collectAntes g.minBet d3.1
    some { g with gameStarted := true, deck := d3.2, pot := 0 + anted.2,
                  currentBet := g.minBet, roundNumber := 0, players := anted.1,
                  currentPlayerIndex := (g.dealerIndex + 1) % g.players.length }

/-- `Game.checkWinner()`: exactly one active player wins by attrition;
otherwise (0 or ≥ 2 active) `null`. -/
def Game.checkWinner (g : Game) : Option Player :=
  match g.getActivePlayers with
  | [p] => some p
  | _ => none

/-- `Game.endGame(winner)`: credit the pot to the winner (the JS caller
passes a player object from this room's list; here identified by id, the
first list entry with that id being the object the JS code mutates), clear
`gameStarted`, rotate `dealerIndex`.  The pot field itself is NOT touched. -/
def Game.endGame (g : Game) (winner : Option Nat) : Game :=
  let players' :=
    match winner with
    | some wid => updateFirst wid (fun p => { p with chips := p.chips + g.pot }) g.players
    | none => g.players
  { g with players := players', gameStarted := false,
           dealerIndex := (g.dealerIndex + 1) % g.players.length }

/-! ## server.js: the `show` handler and the settlement verification gate -/

namespace Server

/-- One step of the winner-selection loop in `socket.on("show")`:
`const compareResult = game.compareHands(winner, activePlayers[i]);
 if (compareResult && compareResult.id === activePlayers[i].id) winner = activePlayers[i];`
A `null` (`none`) compare result is falsy, so the provisional winner is kept. -/
def showStep (w c : Player) : Player :=
  match compareCards w.cards c.cards with
  | none => w
  | some b => let winner := if b then w else c
              if winner.id = c.id then c else w

/-- The winner-selection loop of the `show` handler:
`let winner = activePlayers[0]; for (i = 1; …) { … }`. -/
def showWinner : List Player → Option Player
  | [] => none
  | w0 :: rest => some (rest.foldl showStep w0)

/-- The `show` handler: requires exactly 2 active players (otherwise an
error is emitted and nothing changes, modelled by `none`), selects a winner
by the loop above and ends the round via `game.endGame(winner)`; the
result carries the reported winner id and the new room state. -/
def processShow (g : Game) : Option (Nat × Game) :=
  if g.getActivePlayers.length ≠ 2 then none
  else
    match showWinner g.getActivePlayers with
    | some w => some (w.id, g.endGame (some w.id))
    | none => none

/-- An `{id, chips}` entry of the settlement API. -/
structure ChipCount where
  id : Nat
  chips : ℚ
deriving Repr, DecidableEq

/-- `realChipCounts`: `game.players.map(p => ({id: p.id, chips: p.chips}))`
— the authoritative in-memory ledger. -/
def realChipCounts (g : Game) : List ChipCount :=
  g.players.map (fun p => { id := p.id, chips := p.chips })

/-- The verification gate of `POST /api/settle-game`: reject on a length
mismatch, then `playerChips.every(submitted => …)` — each submitted entry
must find a same-id entry in the authoritative list (`Array.find`, first
match) with exactly equal chips. -/
def verifyChips (submitted real : List ChipCount) : Bool :=
  (submitted.length = real.length) &&
  submitted.all (fun s =>
    match real.find? (fun r => r.id = s.id) with
    | none => false
    | some r => r.chips = s.chips)

/-- The endpoint after its checks: when the gate passes, the on-chain
settlement is invoked with the VERIFIED authoritative counts
(`settlementService.settleCashGame(blockchainRoomId, realChipCounts)`),
not with the submitted ones; `none` models the 400 rejection. -/
def settleEndpoint (g : Game) (submitted : List ChipCount) : Option (List ChipCount) :=
  if verifyChips submitted (realChipCounts g) then some (realChipCounts g) else none

end Server

/-! ## The custody contract (Solidity `TeenPattiGame`, src/unnamed/part_000)

`uint256` is modelled by `Nat` (Solidity 0.8 arithmetic reverts on
overflow/underflow instead of wrapping, so every non-reverting execution
agrees with the `Nat` model; `/` is floor division in both).  Addresses are
opaque identifiers modelled by `Nat`.  `require(cond, msg)` failures are
`Except.error msg`; token transfers are recorded in the result. -/

namespace Contract

inductive GameState
  | WAITING
  | ACTIVE
  | FINISHED
  | CANCELLED
deriving Repr, DecidableEq

/-- The contract's per-room storage (the fields the settlement paths read
and write; timestamps are irrelevant to the claims and omitted). -/
structure Room where
  creator : Nat
  players : List Nat
  buyIn : Nat
  pot : Nat
  maxPlayers : Nat
  state : GameState
  winner : Nat
  hasJoined : Nat → Bool
  playerBalances : Nat → Nat

/-- Result of a successful `settleCashGame`: updated room storage, the
per-player payout transfers (in `_players` order), the rake sent to the
treasury, and the dust transfer. -/
structure SettleResult where
  room : Room
  payouts : List Nat
  rake : Nat
  dust : Nat
  dustRecipient : Nat

/-- The body of the settlement for-loop over `(player, finalChips)` pairs,
threading `topPlayer`/`maxChips` (strict `>` update, so the FIRST maximal
entry is kept) and accumulating `payouts` and `totalDistributed`;
`payout = distributablePot * chips_i / totalChips` with floor division.
Returns `(topPlayer, payouts, totalDistributed)`. -/
def settleScan (dp tc : Nat) : List (Nat × Nat) → Nat → Nat → Nat × List Nat × Nat
  | [], top, _ => (top, [], 0)
  | pc :: rest, top, maxC =>
    let top' := if maxC < pc.2 then pc.1 else top
    let maxC' := if maxC < pc.2 then pc.2 else maxC
    let payout := dp * pc.2 / tc
    let r := settleScan dp tc rest top' maxC'
    (r.1, payout :: r.2.1, payout + r.2.2)

/-- `settleCashGame(_roomId, _players, _finalChips)` of the contract, with
its `require` chain in source order, the rake computation, the proportional
payout loop and the dust transfer to `topPlayer` (who is also recorded as
`winner`); the room moves to `FINISHED` with `pot = 0`. -/
def settleCashGame (room : Room) (rakeFee : Nat) (players finalChips : List Nat) :
    Except String SettleResult :=
  if room.state ≠ GameState.ACTIVE then .error "Game not active"
  else if players.length ≠ finalChips.length then .error "Array length mismatch"
  else if players.length = 0 then .error "No players provided"
  else if room.pot = 0 then .error "No pot to distribute"
  else if finalChips.sum = 0 then .error "Total chips must be greater than zero"
  else if ¬ players.all room.hasJoined then .error "Player not in room"
  else
    match players, finalChips with
    | p0 :: _, c0 :: _ =>
      let pot := room.pot
      let totalChips := finalChips.sum
      let rake := pot * rakeFee / 10000
      let distributablePot := pot - rake
      let scan := settleScan distributablePot totalChips (players.zip finalChips) p0 c0
      let dust := distributablePot - scan.2.2
      .ok { room := { room with state := GameState.FINISHED, winner := scan.1, pot := 0 },
            payouts := scan.2.1, rake := rake, dust := dust, dustRecipient := scan.1 }
    | _, _ => .error "No players provided"

/-- `declareWinner(_roomId, _winner)` of the contract: requires an ACTIVE
room, a joined winner and a non-empty pot; pays `pot - rake` to the winner
and the rake to the treasury; the room moves to `FINISHED` with `pot = 0`.
Returns `(room', winnerAmount, rake)`. -/
def declareWinner (room : Room) (rakeFee : Nat) (winner : Nat) :
    Except String (Room × Nat × Nat) :=
  if room.state ≠ GameState.ACTIVE then .error "Game not active"
  else if ¬ room.hasJoined winner then .error "Winner not in room"
  else if room.pot = 0 then .error "No pot to distribute"
  else
    let pot := room.pot
    let rake := pot * rakeFee / 10000
    let winnerAmount := pot - rake
    .ok ({ room with state := GameState.FINISHED, winner := winner, pot := 0 },
         winnerAmount, rake)

/-- A concrete ACTIVE cash-game room with pot 1000 used in the settlement
examples (players 1, 2, 3 all joined). -/
def cashRoom : Room :=
  { creator := 9, players := [1, 2, 3], buyIn := 0, pot := 1000, maxPlayers := 3,
    state := .ACTIVE, winner := 0, hasJoined := fun a => a = 1 ∨ a = 2 ∨ a = 3,
    playerBalances := fun _ => 0 }

/-- The settlement result of `settleCashGame cashRoom 500 [1,2,3]
[5000,3000,2000]`. -/
def cashResult : SettleResult :=
  { room := { cashRoom with state := .FINISHED, winner := 1, pot := 0 },
    payouts := [475, 285, 190], rake := 50, dust := 0, dustRecipient := 1 }

end Contract

/-- The spec invariant: while a round is live the pot equals the sum of the
players' `totalBet` fields. -/
def potInv (g : Game) : Prop :=
  g.pot = (g.players.map Player.totalBet).sum

/-! ## Concrete instances used in witnesses and counterexamples -/

/-- A freshly constructed player (the `Player` constructor state). -/
def freshPlayer (pid : Nat) (chips : ℚ) : Player :=
  { id := pid, cards := [], chips := chips, currentBet := 0, totalBet := 0,
    isActive := true, isFolded := false, isBlind := true, hasSeenCards := false }

/-- A two-player room that has not started its round yet. -/
def roomBeforeStart : Game :=
  { players := [freshPlayer 0 1000, freshPlayer 1 1000],
    deck := [], pot := 77, currentBet := 0, minBet := 10, currentPlayerIndex := 0,
    dealerIndex := 0, gameStarted := false, minPlayers := 2, maxPlayers := 6,
    roundNumber := 0 }

/-- The same room right after `startGame` with an empty shuffled deck:
antes collected, first turn after the dealer. -/
def roomLive : Game :=
  { players := [{ id := 0, cards := [], chips := 990, currentBet := 10, totalBet := 10,
                  isActive := true, isFolded := false, isBlind := true,
                  hasSeenCards := false },
                { id := 1, cards := [], chips := 990, currentBet := 10, totalBet := 10,
                  isActive := true, isFolded := false, isBlind := true,
                  hasSeenCards := false }],
    deck := [], pot := 20, currentBet := 10, minBet := 10, currentPlayerIndex := 1,
    dealerIndex := 0, gameStarted := true, minPlayers := 2, maxPlayers := 6,
    roundNumber := 0 }

/-- `roomLive` after the current player (id 1) plays `see`. -/
def roomLiveSeen : Game :=
  { roomLive with
    players := [{ id := 0, cards := [], chips := 990, currentBet := 10, totalBet := 10,
                  isActive := true, isFolded := false, isBlind := true,
                  hasSeenCards := false },
                { id := 1, cards := [], chips := 990, currentBet := 10, totalBet := 10,
                  isActive := true, isFolded := false, isBlind := false,
                  hasSeenCards := true }] }

/-- The first player of `roomLive`. -/
def roomLiveP0 : Player :=
  { id := 0, cards := [], chips := 990, currentBet := 10, totalBet := 10,
    isActive := true, isFolded := false, isBlind := true, hasSeenCards := false }

/-- The first player of `roomTie`. -/
def roomTieP0 : Player :=
  { id := 0, cards := [⟨9, 0⟩, ⟨5, 1⟩, ⟨2, 2⟩], chips := 990, currentBet := 10,
    totalBet := 10, isActive := true, isFolded := false, isBlind := false,
    hasSeenCards := true }

/-- The second player of `roomTie`. -/
def roomTieP1 : Player :=
  { id := 1, cards := [⟨9, 1⟩, ⟨5, 2⟩, ⟨2, 3⟩], chips := 990, currentBet := 10,
    totalBet := 10, isActive := true, isFolded := false, isBlind := false,
    hasSeenCards := true }

/-- The second player of `roomLive` (the current-turn player, still blind). -/
def roomLiveP1 : Player :=
  { id := 1, cards := [], chips := 990, currentBet := 10, totalBet := 10,
    isActive := true, isFolded := false, isBlind := true, hasSeenCards := false }

/-- A live two-player room whose two active hands tie exactly: both are
the high-card hand J-7-4 in different suits. -/
def roomTie : Game :=
  { players := [{ id := 0, cards := [⟨9, 0⟩, ⟨5, 1⟩, ⟨2, 2⟩], chips := 990,
                  currentBet := 10, totalBet := 10, isActive := true, isFolded := false,
                  isBlind := false, hasSeenCards := true },
                { id := 1, cards := [⟨9, 1⟩, ⟨5, 2⟩, ⟨2, 3⟩], chips := 990,
                  currentBet := 10, totalBet := 10, isActive := true, isFolded := false,
                  isBlind := false, hasSeenCards := true }],
    deck := [], pot := 20, currentBet := 10, minBet := 10, currentPlayerIndex := 1,
    dealerIndex := 0, gameStarted := true, minPlayers := 2, maxPlayers := 6,
    roundNumber := 0 }

/-- `roomBeforeStart` after player 0 plays `see` — even though the round
has not started. -/
def roomBeforeStartSeen : Game :=
  { roomBeforeStart with
    players := [(freshPlayer 0 1000).seeCards, freshPlayer 1 1000] }

end ThreePatti

/-! ## Theorems -/

namespace ThreePatti

/-- Card values are rank indices, hence never negative; only the A-2-3
special case introduces `-1` into a compare key. -/
theorem Card.getValue_nonneg (c : Card) : 0 ≤ c.getValue := Int.ofNat_nonneg c.rank

/-- C3, general part, stepping stone: if a hand evaluates to a (pure or
plain) sequence and its key is not the A-2-3 key, then the A-2-3 key
`[-1, -1, -1]` compares strictly below its key. -/
theorem a23_key_below (cards : List Card)
    (hrank : (evaluateHand cards).rank = SEQUENCE ∨ (evaluateHand cards).rank = PURE_SEQUENCE)
    (hne : (evaluateHand cards).values ≠ [-1, -1, -1]) :
    cmpValues [-1, -1, -1] (evaluateHand cards).values = some false := by
  rcases hL : sortCardsDesc cards with _ | ⟨d0, _ | ⟨d1, _ | ⟨d2, _ | ⟨d3, rest⟩⟩⟩⟩
  case nil | cons.nil | cons.cons.nil | cons.cons.cons.cons =>
    exfalso
    have hr : (evaluateHand cards).rank = HIGH_CARD := by
      simp only [evaluateHand, hL, List.map_cons, List.map_nil]
    rw [hr] at hrank
    simp [HIGH_CARD, SEQUENCE, PURE_SEQUENCE] at hrank
  -- the three-card case
  have h0 : (0 : ℤ) ≤ d0.getValue := Card.getValue_nonneg d0
  by_cases ht : d0.getValue = d1.getValue ∧ d1.getValue = d2.getValue
  · exfalso
    have hr : (evaluateHand cards).rank = TRIO_RANK := by
      simp only [evaluateHand, hL, List.map_cons, List.map_nil]
      rw [if_pos ht]
    rw [hr] at hrank
    simp [TRIO_RANK, SEQUENCE, PURE_SEQUENCE] at hrank
  by_cases hA : d0.getValue = 12 ∧ d1.getValue = 1 ∧ d2.getValue = 0
  · exfalso
    have hseq : isSequence [d0.getValue, d1.getValue, d2.getValue] =
        { isSeq := true, compareValues := [-1, -1, -1] } := by
      simp only [isSequence]
      rw [if_pos hA]
    have hv : (evaluateHand cards).values = [-1, -1, -1] := by
      simp only [evaluateHand, hL, List.map_cons, List.map_nil]
      rw [if_neg ht]
      by_cases hf : d0.suit = d1.suit ∧ d1.suit = d2.suit <;> simp [hseq, hf]
    exact hne hv
  by_cases hrun : d0.getValue = d1.getValue + 1 ∧ d1.getValue = d2.getValue + 1
  · have hseq : isSequence [d0.getValue, d1.getValue, d2.getValue] =
        { isSeq := true, compareValues := [d0.getValue, d1.getValue, d2.getValue] } := by
      simp only [isSequence]
      rw [if_neg hA, if_pos hrun]
    have hv : (evaluateHand cards).values = [d0.getValue, d1.getValue, d2.getValue] := by
      simp only [evaluateHand, hL, List.map_cons, List.map_nil]
      rw [if_neg ht]
      by_cases hf : d0.suit = d1.suit ∧ d1.suit = d2.suit <;> simp [hseq, hf]
    rw [hv]
    simp only [cmpValues]
    rw [if_pos (by omega : (-1 : ℤ) ≠ d0.getValue)]
    simp [decide_eq_false_iff_not]
    omega
  · exfalso
    have hseq : isSequence [d0.getValue, d1.getValue, d2.getValue] =
        { isSeq := false, compareValues := [d0.getValue, d1.getValue, d2.getValue] } := by
      simp only [isSequence]
      rw [if_neg hA, if_neg hrun]
    have hr : (evaluateHand cards).rank ≤ COLOR := by
      simp only [evaluateHand, hL, List.map_cons, List.map_nil]
      rw [if_neg ht]
      simp only [hseq]
      split_ifs <;> simp_all [COLOR, PAIR, HIGH_CARD]
    rcases hrank with hrank | hrank <;> rw [hrank] at hr <;>
      simp [SEQUENCE, PURE_SEQUENCE, COLOR] at hr

/-- C3: `evaluate` on the three suited cards A-2-3 returns rank
`PURE_SEQUENCE` with compare key `[-1, -1, -1]`; that key compares strictly
below the key of every other (pure or plain) sequence; and in particular
`compareHands` ranks the suited A-2-3 below the suited 2-3-4, despite the
Ace's highest face value (12). -/
theorem c3_a23_pure_sequence_lowest :
    (∀ s : Nat, (evaluateHand [⟨12, s⟩, ⟨0, s⟩, ⟨1, s⟩]).rank = PURE_SEQUENCE ∧
       (evaluateHand [⟨12, s⟩, ⟨0, s⟩, ⟨1, s⟩]).values = [-1, -1, -1]) ∧
    (∀ cards : List Card,
       ((evaluateHand cards).rank = SEQUENCE ∨ (evaluateHand cards).rank = PURE_SEQUENCE) →
       (evaluateHand cards).values ≠ [-1, -1, -1] →
       cmpValues (evaluateHand [⟨12, 0⟩, ⟨0, 0⟩, ⟨1, 0⟩]).values (evaluateHand cards).values
         = some false) ∧
    (∀ s t : Nat, compareCards [⟨12, s⟩, ⟨0, s⟩, ⟨1, s⟩] [⟨0, t⟩, ⟨1, t⟩, ⟨2, t⟩] = some false) := by
  refine ⟨fun s => ?_, fun cards h1 h2 => ?_, fun s t => ?_⟩
  · constructor <;>
      simp [evaluateHand, sortCardsDesc, insertDesc, isSequence, Card.getValue, PURE_SEQUENCE]
  · have ha : (evaluateHand [⟨12, 0⟩, ⟨0, 0⟩, ⟨1, 0⟩]).values = [-1, -1, -1] := by decide
    rw [ha]
    exact a23_key_below cards h1 h2
  · simp [compareCards, evaluateHand, sortCardsDesc, insertDesc, isSequence, Card.getValue,
      cmpValues]

/-- Witness for C3: the general part applied to the concrete (non-pure)
sequence 6-5-4 in mixed suits. -/
theorem c3_a23_pure_sequence_lowest_witness :
    cmpValues (evaluateHand [⟨12, 0⟩, ⟨0, 0⟩, ⟨1, 0⟩]).values
      (evaluateHand [⟨4, 0⟩, ⟨3, 1⟩, ⟨2, 2⟩]).values = some false :=
  c3_a23_pure_sequence_lowest.2.1 [⟨4, 0⟩, ⟨3, 1⟩, ⟨2, 2⟩] (Or.inl (by decide)) (by decide)

/-- Pair hands (two equal values, third different, not all suits equal —
any hand from a real deck) evaluate to `PAIR` with the paired value first.
Stated for a hand whose SORTED form is `[d0, d1, d2]`, one conjunct per
position of the pair in the sorted order (pair-high, pair-low, pair-split). -/
theorem eval_sorted_pair (cards : List Card) (d0 d1 d2 : Card)
    (hL : sortCardsDesc cards = [d0, d1, d2])
    (hf : ¬ (d0.suit = d1.suit ∧ d1.suit = d2.suit)) :
    (d0.getValue = d1.getValue ∧ d1.getValue ≠ d2.getValue →
       evaluateHand cards = ⟨PAIR, [d0.getValue, d1.getValue, d2.getValue]⟩) ∧
    (d1.getValue = d2.getValue ∧ d0.getValue ≠ d1.getValue →
       evaluateHand cards = ⟨PAIR, [d1.getValue, d2.getValue, d0.getValue]⟩) ∧
    (d0.getValue = d2.getValue ∧ d0.getValue ≠ d1.getValue →
       evaluateHand cards = ⟨PAIR, [d0.getValue, d2.getValue, d1.getValue]⟩) := by
  refine ⟨fun ⟨heq, hne⟩ => ?_, fun ⟨heq, hne⟩ => ?_, fun ⟨heq, hne⟩ => ?_⟩ <;>
  · have hseq : isSequence [d0.getValue, d1.getValue, d2.getValue] =
        { isSeq := false, compareValues := [d0.getValue, d1.getValue, d2.getValue] } := by
      simp only [isSequence]
      rw [if_neg (by omega), if_neg (by omega)]
    simp only [evaluateHand, hL, List.map_cons, List.map_nil]
    rw [if_neg (by omega)]
    simp only [hseq, Bool.false_eq_true, false_and, if_false, decide_eq_true_eq,
      if_neg hf]
    split_ifs <;> simp_all

/-- The six possible outcomes of sorting a 3-card hand. -/
theorem sort3_cases (c0 c1 c2 : Card) :
    sortCardsDesc [c0, c1, c2] = [c2, c1, c0] ∨
    sortCardsDesc [c0, c1, c2] = [c2, c0, c1] ∨
    sortCardsDesc [c0, c1, c2] = [c0, c2, c1] ∨
    sortCardsDesc [c0, c1, c2] = [c1, c2, c0] ∨
    sortCardsDesc [c0, c1, c2] = [c1, c0, c2] ∨
    sortCardsDesc [c0, c1, c2] = [c0, c1, c2] := by
  by_cases ha : c1.getValue ≤ c2.getValue
  · by_cases hb : c0.getValue ≤ c2.getValue
    · by_cases hc : c0.getValue ≤ c1.getValue
      · exact Or.inl (by simp [sortCardsDesc, insertDesc, ha, hb, hc])
      · exact Or.inr (Or.inl (by simp [sortCardsDesc, insertDesc, ha, hb, hc]))
    · exact Or.inr (Or.inr (Or.inl (by simp [sortCardsDesc, insertDesc, ha, hb])))
  · by_cases hb : c0.getValue ≤ c1.getValue
    · by_cases hc : c0.getValue ≤ c2.getValue
      · exact Or.inr (Or.inr (Or.inr (Or.inl
          (by simp [sortCardsDesc, insertDesc, ha, hb, hc]))))
      · exact Or.inr (Or.inr (Or.inr (Or.inr (Or.inl
          (by simp [sortCardsDesc, insertDesc, ha, hb, hc])))))
    · exact Or.inr (Or.inr (Or.inr (Or.inr (Or.inr
        (by simp [sortCardsDesc, insertDesc, ha, hb])))))

/-- C8, general part: for every input order of a one-pair hand the key is
`[pairRank, pairRank, kicker]`. -/
theorem c8_general (c0 c1 c2 : Card) (hsuit : ¬ (c0.suit = c1.suit ∧ c1.suit = c2.suit)) :
    (c0.getValue = c1.getValue ∧ c0.getValue ≠ c2.getValue →
      evaluateHand [c0, c1, c2] =
        { rank := PAIR, values := [c0.getValue, c0.getValue, c2.getValue] }) ∧
    (c1.getValue = c2.getValue ∧ c0.getValue ≠ c1.getValue →
      evaluateHand [c0, c1, c2] =
        { rank := PAIR, values := [c1.getValue, c1.getValue, c0.getValue] }) ∧
    (c0.getValue = c2.getValue ∧ c0.getValue ≠ c1.getValue →
      evaluateHand [c0, c1, c2] =
        { rank := PAIR, values := [c0.getValue, c0.getValue, c1.getValue] }) := by
  refine ⟨fun h => ?_, fun h => ?_, fun h => ?_⟩ <;> obtain ⟨heq, hne⟩ := h <;>
    rcases sort3_cases c0 c1 c2 with hL | hL | hL | hL | hL | hL <;>
    (obtain ⟨E1, E2, E3⟩ := eval_sorted_pair _ _ _ _ hL (by omega)
     first
      | (rw [E1 (by omega)]
         simp only [HandEval.mk.injEq, List.cons.injEq, and_true, true_and]
         omega)
      | (rw [E2 (by omega)]
         simp only [HandEval.mk.injEq, List.cons.injEq, and_true, true_and]
         omega)
      | (rw [E3 (by omega)]
         simp only [HandEval.mk.injEq, List.cons.injEq, and_true, true_and]
         omega))

/-- C8: every 3-card hand with exactly one pair evaluates to rank `PAIR`
with tie-break key `[pairRank, pairRank, kicker]`, wherever the paired
cards sit (the suit hypothesis says the three cards are not all of one
suit, which holds for every hand from a real deck since the paired cards
share a rank and so differ in suit); in particular `[K, 5, K]` yields the
same evaluation, with key `[K, K, 5]`, as `[K, K, 5]`. -/
theorem c8_pair_key_normalized :
    (∀ c0 c1 c2 : Card, ¬ (c0.suit = c1.suit ∧ c1.suit = c2.suit) →
      (c0.getValue = c1.getValue ∧ c0.getValue ≠ c2.getValue →
        evaluateHand [c0, c1, c2] =
          { rank := PAIR, values := [c0.getValue, c0.getValue, c2.getValue] }) ∧
      (c1.getValue = c2.getValue ∧ c0.getValue ≠ c1.getValue →
        evaluateHand [c0, c1, c2] =
          { rank := PAIR, values := [c1.getValue, c1.getValue, c0.getValue] }) ∧
      (c0.getValue = c2.getValue ∧ c0.getValue ≠ c1.getValue →
        evaluateHand [c0, c1, c2] =
          { rank := PAIR, values := [c0.getValue, c0.getValue, c1.getValue] })) ∧
    evaluateHand [⟨11, 3⟩, ⟨3, 0⟩, ⟨11, 1⟩] = evaluateHand [⟨11, 3⟩, ⟨11, 1⟩, ⟨3, 0⟩] ∧
    (evaluateHand [⟨11, 3⟩, ⟨3, 0⟩, ⟨11, 1⟩]).values = [11, 11, 3] :=
  ⟨c8_general, by decide, by decide⟩

/-- Witness for C8: the general part applied to the concrete hand 7-7-J
(pair in front). -/
theorem c8_pair_key_normalized_witness :
    evaluateHand [⟨5, 0⟩, ⟨5, 1⟩, ⟨9, 2⟩] =
      { rank := PAIR, values := [5, 5, 9] } :=
  (c8_pair_key_normalized.1 ⟨5, 0⟩ ⟨5, 1⟩ ⟨9, 2⟩ (by decide)).1 (by decide)

/-! ### The pot invariant (C1) -/

/-- Dealing cards never touches any bet bookkeeping. -/
theorem dealRound_map_totalBet (ps : List Player) (d : List Card) :
    (dealRound ps d).1.map Player.totalBet = ps.map Player.totalBet := by
  induction ps generalizing d with
  | nil => rfl
  | cons p ps ih =>
    simp only [dealRound]
    rcases deal d with ⟨_ | c, d'⟩ <;> simp [Player.addCard, ih]

/-- The ante loop adds exactly the collected total to the players'
`totalBet` sum. -/
theorem collectAntes_map_totalBet_sum (m : ℚ) (ps : List Player) :
    ((collectAntes m ps).1.map Player.totalBet).sum
      = (ps.map Player.totalBet).sum + (collectAntes m ps).2 := by
  induction ps with
  | nil => simp [collectAntes]
  | cons p ps ih =>
    simp only [collectAntes, List.map_cons, List.sum_cons, Player.bet]
    rw [ih]
    ring

/-- Replacing the first player found by id changes the `totalBet` sum by
exactly the difference between old and new `totalBet`. -/
theorem setFirst_map_totalBet_sum (pid : Nat) (p p' : Player) (ps : List Player)
    (hfind : ps.find? (fun q => q.id = pid) = some p) :
    ((setFirst pid p' ps).map Player.totalBet).sum
      = (ps.map Player.totalBet).sum - p.totalBet + p'.totalBet := by
  induction ps with
  | nil => simp at hfind
  | cons q qs ih =>
    by_cases hq : q.id = pid
    · rw [List.find?_cons_of_pos _ (by simp [hq])] at hfind
      obtain rfl : q = p := by simpa using hfind
      simp only [setFirst, if_pos hq, List.map_cons, List.sum_cons]
      ring
    · rw [List.find?_cons_of_neg _ (by simp [hq])] at hfind
      simp only [setFirst, if_neg hq, List.map_cons, List.sum_cons, ih hfind]
      ring

/-- `nextPlayer` only moves the turn index: players and pot are unchanged. -/
theorem nextPlayer_players_pot (g g' : Game) (h : g.nextPlayer = some g') :
    g'.players = g.players ∧ g'.pot = g.pot := by
  unfold Game.nextPlayer at h
  split at h
  · simp at h
  · rcases Option.map_eq_some'.mp h with ⟨j, _, rfl⟩
    exact ⟨rfl, rfl⟩

/-- A successful `betTail` (the shared deduct-add-advance tail of
`bet`/`chaal`) preserves the pot invariant. -/
theorem betTail_potInv (g : Game) (pid : Nat) (player : Player) (amt : ℚ) (g' : Game)
    (hfind : g.players.find? (fun q => q.id = pid) = some player)
    (hinv : potInv g)
    (h : betTail g pid player amt = .ok g') : potInv g' := by
  unfold betTail at h
  rcases hbet : player.bet amt with ⟨ba, p'⟩
  rw [hbet] at h
  dsimp only at h
  have hptb : p'.totalBet = player.totalBet + ba := by
    simp only [Player.bet, Prod.mk.injEq] at hbet
    obtain ⟨hba, hp'⟩ := hbet
    subst hba
    subst hp'
    rfl
  split at h
  case _ g'' heq =>
    obtain rfl : g'' = g' := by simpa using h
    obtain ⟨hpl, hpot⟩ := nextPlayer_players_pot _ _ heq
    unfold potInv
    rw [hpl, hpot]
    show g.pot + ba = ((setFirst pid p' g.players).map Player.totalBet).sum
    rw [setFirst_map_totalBet_sum pid player p' g.players hfind, ← hinv, hptb]
    ring
  case _ => simp at h

/-- Replacing the first id-match by a player with the same `totalBet`
preserves the pot invariant. -/
theorem setFirst_potInv (g : Game) (pid : Nat) (player p' : Player)
    (hfind : g.players.find? (fun q => q.id = pid) = some player)
    (htb : p'.totalBet = player.totalBet)
    (hinv : potInv g) :
    potInv { g with players := setFirst pid p' g.players } := by
  unfold potInv at *
  show g.pot = ((setFirst pid p' g.players).map Player.totalBet).sum
  rw [setFirst_map_totalBet_sum pid player p' g.players hfind, htb, ← hinv]
  ring

/-- `nextPlayer` preserves the pot invariant. -/
theorem nextPlayer_potInv (g g' : Game) (h : g.nextPlayer = some g')
    (hinv : potInv g) : potInv g' := by
  obtain ⟨hpl, hpot⟩ := nextPlayer_players_pot g g' h
  unfold potInv at *
  rw [hpl, hpot]
  exact hinv

/-- A successful `startGame` establishes the pot invariant: the pot is
reset to 0 and then holds exactly the collected antes, which are exactly
the players' (reset) `totalBet` fields. -/
theorem startGame_potInv (g : Game) (d : List Card) (g' : Game)
    (h : g.startGame d = some g') : potInv g' := by
  unfold Game.startGame at h
  split at h
  · simp at h
  · dsimp only at h
    obtain rfl := Option.some.inj h
    unfold potInv
    show 0 + (collectAntes g.minBet _).2
        = (((collectAntes g.minBet _).1).map Player.totalBet).sum
    rw [collectAntes_map_totalBet_sum, dealRound_map_totalBet, dealRound_map_totalBet,
      dealRound_map_totalBet]
    have hz : ((g.players.map Player.reset).map Player.totalBet).sum = 0 := by
      rw [List.map_map]
      apply List.sum_eq_zero
      intro x hx
      rcases List.mem_map.mp hx with ⟨p, _, rfl⟩
      rfl
    rw [hz]

/-- A successful `playerAction` preserves the pot invariant. -/
theorem playerAction_potInv (g : Game) (pid : Nat) (a : String) (amt : ℚ) (g' : Game)
    (hinv : potInv g) (h : g.playerAction pid a amt = .ok g') : potInv g' := by
  unfold Game.playerAction at h
  rcases hfind : g.getPlayer pid with _ | player
  · rw [hfind] at h
    simp at h
  rw [hfind] at h
  rcases hcur : g.getCurrentPlayer with _ | current
  · rw [hcur] at h
    simp at h
  rw [hcur] at h
  dsimp only at h
  split_ifs at h <;>
    first
    | (exfalso; simp at h; done)
    | exact betTail_potInv _ pid player amt g' (by exact hfind) (by exact hinv) h
    | (obtain rfl : _ = g' := by simpa using h
       exact setFirst_potInv g pid player player.seeCards hfind rfl hinv)
    | (split at h
       · rename_i g'' heq
         obtain rfl : g'' = g' := by simpa using h
         exact nextPlayer_potInv _ _ heq
           (setFirst_potInv g pid player player.fold hfind rfl hinv)
       · simp at h)

/-- C1: while a round is live the pot equals the sum of `totalBet`
over all players: a successful `startGame` (which collects the `minBet`
ante from every player) establishes the invariant, and every successful
`playerAction` (`see`, `fold`/`pack`, `bet`/`chaal`) preserves it. -/
theorem c1_pot_equals_totalBet_sum :
    (∀ (g : Game) (d : List Card) (g' : Game), g.startGame d = some g' → potInv g') ∧
    (∀ (g : Game) (pid : Nat) (a : String) (amt : ℚ) (g' : Game),
      potInv g → g.playerAction pid a amt = .ok g' → potInv g') :=
  ⟨startGame_potInv, playerAction_potInv⟩

/-- Witness for C1: concrete `startGame` and a concrete successful action
on the resulting live room. -/
theorem c1_pot_equals_totalBet_sum_witness :
    potInv roomLive ∧ potInv roomLiveSeen :=
  ⟨c1_pot_equals_totalBet_sum.1 roomBeforeStart [] roomLive (by
      norm_num [roomBeforeStart, roomLive, freshPlayer, Game.startGame, Game.canStartGame,
        dealRound, deal, collectAntes, Player.bet, Player.reset]),
   c1_pot_equals_totalBet_sum.2 roomLive 1 "see" 0 roomLiveSeen
     (by norm_num [potInv, roomLive])
     (by decide)⟩

/-- `betTail` can only return `ok` or `thrown`, never a structured
rejection. -/
theorem betTail_ne_err (g : Game) (pid : Nat) (p : Player) (amt : ℚ) (e : GameError) :
    betTail g pid p amt ≠ .err e := by
  unfold betTail
  rcases p.bet amt with ⟨ba, p'⟩
  dsimp only
  split <;> simp

/-- Counterexample to C5: in a room whose round has NOT started
(`gameStarted = false`), an action by the player at `currentPlayerIndex`
is accepted — `playerAction` has no round-active check at all. -/
theorem c5_counterexample :
    roomBeforeStart.gameStarted = false ∧
    roomBeforeStart.playerAction 0 "see" 0 = .ok roomBeforeStartSeen :=
  ⟨rfl, by decide⟩

/-- C5 (amended): `playerAction` fails with the `NotYourTurn`
rejection (returning before any state is touched — the model is pure, and
in the JS code the return precedes every mutation) exactly when `playerId`
does not resolve to the current-turn player: the player is unknown, or the
current index yields a player object and the ids differ.  There is no
round-ACTIVE requirement: whether `gameStarted` is false is never
consulted (see the counterexample). -/
theorem c5_not_your_turn_iff (g : Game) (pid : Nat) (action : String) (amount : ℚ) :
    g.playerAction pid action amount = .err .notYourTurn ↔
      (g.getPlayer pid = none ∨
        ∃ p c, g.getPlayer pid = some p ∧ g.getCurrentPlayer = some c ∧ p.id ≠ c.id) := by
  unfold Game.playerAction
  rcases hfind : g.getPlayer pid with _ | player
  · simp
  rcases hcur : g.getCurrentPlayer with _ | current
  · simp
  dsimp only
  by_cases hid : player.id ≠ current.id
  · rw [if_pos hid]
    constructor
    · intro _
      exact Or.inr ⟨player, current, rfl, rfl, hid⟩
    · intro _
      rfl
  · rw [if_neg hid]
    constructor
    · intro hres
      exfalso
      revert hres
      split_ifs <;>
        first
        | (intro hres; exact betTail_ne_err _ _ _ _ _ hres)
        | (split <;> simp)
        | simp
    · rintro (hnone | ⟨p, c, hp, hc, hne⟩)
      · simp at hnone
      · obtain rfl : player = p := by simpa using hp
        obtain rfl : current = c := by simpa using hc
        exact absurd hne hid

/-! ### Round end (C6) and the show handler (C10) -/

/-- `updateFirst` with an id-preserving function updates exactly the player
`getPlayer` finds. -/
theorem find?_updateFirst (ps : List Player) (pid : Nat) (f : Player → Player) (p : Player)
    (hfind : ps.find? (fun q => q.id = pid) = some p)
    (hf : ∀ q, (f q).id = q.id) :
    (updateFirst pid f ps).find? (fun q => q.id = pid) = some (f p) := by
  induction ps with
  | nil => simp at hfind
  | cons q qs ih =>
    by_cases hq : q.id = pid
    · rw [List.find?_cons_of_pos _ (by simp [hq])] at hfind
      obtain rfl : q = p := by simpa using hfind
      simp only [updateFirst, if_pos hq]
      rw [List.find?_cons_of_pos _ (by simp [hf, hq])]
    · rw [List.find?_cons_of_neg _ (by simp [hq])] at hfind
      simp only [updateFirst, if_neg hq]
      rw [List.find?_cons_of_neg _ (by simp [hq])]
      exact ih hfind

/-- Counterexample to C6: `endGame` clears `gameStarted` but does NOT
reset the pot — here the pot is still 20 after the round has ended (it is
only zeroed by the next `startGame`). -/
theorem c6_counterexample :
    (roomLive.endGame (some 0)).gameStarted = false ∧
    (roomLive.endGame (some 0)).pot = 20 ∧ (20 : ℚ) ≠ 0 :=
  ⟨rfl, rfl, by norm_num⟩

/-- C6 (amended): `endGame` credits the pot to the winner's chips (no
chip change when the winner is null), clears `gameStarted` and rotates
`dealerIndex`; the pot field is NOT reset by `endGame` — it keeps its value
(`startGame` zeroes it at the start of the next round). -/
theorem c6_endGame_behavior (g : Game) (wid : Nat) (p : Player)
    (hp : g.getPlayer wid = some p) :
    ((g.endGame (some wid)).getPlayer wid = some { p with chips := p.chips + g.pot } ∧
     (g.endGame (some wid)).gameStarted = false ∧
     (g.endGame (some wid)).dealerIndex = (g.dealerIndex + 1) % g.players.length ∧
     (g.endGame (some wid)).pot = g.pot) ∧
    ((g.endGame none).players = g.players ∧
     (g.endGame none).gameStarted = false ∧
     (g.endGame none).dealerIndex = (g.dealerIndex + 1) % g.players.length ∧
     (g.endGame none).pot = g.pot) := by
  refine ⟨⟨?_, rfl, rfl, rfl⟩, rfl, rfl, rfl, rfl⟩
  exact find?_updateFirst g.players wid _ p hp (fun q => rfl)

/-- Witness for C6: ending the concrete live round credits the 20-chip pot
to winner 0. -/
theorem c6_endGame_behavior_witness :
    (roomLive.endGame (some 0)).getPlayer 0 =
      some { roomLiveP0 with chips := roomLiveP0.chips + roomLive.pot } :=
  (c6_endGame_behavior roomLive 0 roomLiveP0 (by decide)).1.1

/-- With distinct player ids, `find?` locates a member exactly. -/
theorem find?_mem_of_nodup (ps : List Player) (a : Player)
    (ha : a ∈ ps) (hnd : (ps.map Player.id).Nodup) :
    ps.find? (fun q => q.id = a.id) = some a := by
  induction ps with
  | nil => simp at ha
  | cons q qs ih =>
    rcases List.mem_cons.mp ha with rfl | hmem
    · exact List.find?_cons_of_pos _ (by simp)
    · by_cases hq : q.id = a.id
      · exfalso
        have : a.id ∈ qs.map Player.id := List.mem_map_of_mem _ hmem
        simp only [List.map_cons, List.nodup_cons] at hnd
        exact hnd.1 (hq ▸ this)
      · rw [List.find?_cons_of_neg _ (by simp [hq])]
        exact ih hmem (by simp only [List.map_cons, List.nodup_cons] at hnd; exact hnd.2)

/-- C10 (implicit behavior): in the `show` handler a tie
(`compareHands` = null) never replaces the provisional winner; hence when
the two active hands tie exactly, `processShow` reports the active player
earliest in seating order as the winner and `endGame` credits the whole pot
to that player. -/
theorem c10_show_tie_first_active_wins (g : Game) (a b : Player)
    (hact : g.getActivePlayers = [a, b])
    (htie : compareCards a.cards b.cards = none)
    (hids : (g.players.map Player.id).Nodup) :
    (∀ w c : Player, compareCards w.cards c.cards = none → Server.showStep w c = w) ∧
    Server.processShow g = some (a.id, g.endGame (some a.id)) ∧
    (g.endGame (some a.id)).getPlayer a.id = some { a with chips := a.chips + g.pot } := by
  have hstep : ∀ w c : Player, compareCards w.cards c.cards = none →
      Server.showStep w c = w := by
    intro w c h
    unfold Server.showStep
    rw [h]
  have hmem : a ∈ g.players := by
    have : a ∈ g.getActivePlayers := by rw [hact]; simp
    exact List.mem_of_mem_filter this
  refine ⟨hstep, ?_, ?_⟩
  · unfold Server.processShow
    rw [hact]
    simp only [List.length_cons, List.length_nil]
    rw [if_neg (by simp)]
    unfold Server.showWinner
    simp only [List.foldl_cons, List.foldl_nil, hstep a b htie]
  · exact find?_updateFirst g.players a.id _ a
      (find?_mem_of_nodup g.players a hmem hids) (fun q => rfl)

/-- Witness for C10: two concrete identical-value high-card hands; the
whole pot goes to seat 0. -/
theorem c10_show_tie_first_active_wins_witness :
    Server.processShow roomTie = some (roomTieP0.id, roomTie.endGame (some roomTieP0.id)) :=
  (c10_show_tie_first_active_wins roomTie roomTieP0 roomTieP1
    (by decide) (by decide) (by decide)).2.1

/-! ### Bet validation (C4) -/

/-- The cyclic do-while scan of `nextPlayer` succeeds whenever some
non-folded player is reachable within the fuel. -/
theorem findNextIdx_isSome (players : List Player) (fuel : Nat) :
    ∀ idx, (∃ k p, 1 ≤ k ∧ k ≤ fuel ∧
        players.get? ((idx + k) % players.length) = some p ∧ p.isFolded = false) →
    (findNextIdx players idx fuel).isSome := by
  induction fuel with
  | zero =>
    rintro idx ⟨k, p, h1, h2, _, _⟩
    omega
  | succ fuel ih =>
    rintro idx ⟨k, p, hk1, hk2, hp, hpf⟩
    have hN : 0 < players.length := by
      rcases players with _ | ⟨q, qs⟩
      · simp at hp
      · simp
    have hjN : (idx + 1) % players.length < players.length := Nat.mod_lt _ hN
    obtain ⟨pj, hpj⟩ : ∃ pj, players.get? ((idx + 1) % players.length) = some pj :=
      ⟨_, List.get?_eq_get hjN⟩
    have hunf : findNextIdx players idx (fuel + 1)
        = match players.get? ((idx + 1) % players.length) with
          | none => none
          | some p =>
            if p.isFolded then findNextIdx players ((idx + 1) % players.length) fuel
            else some ((idx + 1) % players.length) := rfl
    rw [hunf, hpj]
    dsimp only
    by_cases hf : pj.isFolded
    · rw [if_pos hf]
      apply ih ((idx + 1) % players.length)
      have hkne : k ≠ 1 := by
        intro h1
        subst h1
        rw [hpj] at hp
        obtain rfl := Option.some.inj hp
        rw [hpf] at hf
        simp at hf
      refine ⟨k - 1, p, by omega, by omega, ?_, hpf⟩
      have hidx : ((idx + 1) % players.length + (k - 1)) % players.length
          = (idx + k) % players.length := by
        rw [Nat.mod_add_mod]
        congr 1
        omega
      rw [hidx]
      exact hp
    · rw [if_neg hf]
      simp

/-- `nextPlayer` succeeds whenever at least two active players remain
(the cyclic scan over all seats reaches a non-folded player). -/
theorem nextPlayer_isSome (g : Game) (h2 : 2 ≤ g.getActivePlayers.length) :
    ∃ g', g.nextPlayer = some g' := by
  unfold Game.nextPlayer
  rw [if_neg (by omega)]
  obtain ⟨q, hq⟩ : ∃ q, q ∈ g.getActivePlayers := by
    rcases hl : g.getActivePlayers with _ | ⟨q, qs⟩
    · rw [hl] at h2
      simp at h2
    · exact ⟨q, by simp⟩
  have hqp : q ∈ g.players := List.mem_of_mem_filter hq
  have hqf : q.isFolded = false := by
    have := List.of_mem_filter hq
    simp only [Bool.and_eq_true, Bool.not_eq_true'] at this
    exact this.2
  obtain ⟨j, hj⟩ := List.mem_iff_get?.mp hqp
  have hjlen : j < g.players.length := by
    rcases List.get?_eq_some.mp hj with ⟨h, _⟩
    exact h
  have hN : 0 < g.players.length := by omega
  have hrN : (g.currentPlayerIndex + 1) % g.players.length < g.players.length :=
    Nat.mod_lt _ hN
  have hk : (g.currentPlayerIndex +
      ((j + g.players.length - (g.currentPlayerIndex + 1) % g.players.length)
        % g.players.length + 1)) % g.players.length = j := by
    have h1 : g.currentPlayerIndex +
        ((j + g.players.length - (g.currentPlayerIndex + 1) % g.players.length)
          % g.players.length + 1)
        = (g.currentPlayerIndex + 1) +
          (j + g.players.length - (g.currentPlayerIndex + 1) % g.players.length)
            % g.players.length := by omega
    rw [h1, ← Nat.mod_add_mod, Nat.add_mod_mod]
    have h2 : (g.currentPlayerIndex + 1) % g.players.length +
        (j + g.players.length - (g.currentPlayerIndex + 1) % g.players.length)
        = j + g.players.length := by omega
    rw [h2, Nat.add_mod_right, Nat.mod_eq_of_lt hjlen]
  have hsome := findNextIdx_isSome g.players g.players.length g.currentPlayerIndex
    ⟨(j + g.players.length - (g.currentPlayerIndex + 1) % g.players.length)
        % g.players.length + 1, q,
      by omega,
      by have := Nat.mod_lt (j + g.players.length -
            (g.currentPlayerIndex + 1) % g.players.length) hN
         omega,
      by rw [hk]; exact hj, hqf⟩
  rcases hfi : findNextIdx g.players g.currentPlayerIndex g.players.length with _ | j'
  · rw [hfi] at hsome
    simp at hsome
  · exact ⟨_, rfl⟩

/-- Replacing the first id-match by a player with the same activity flags
keeps the number of active players unchanged. -/
theorem filter_active_setFirst_length (ps : List Player) (pid : Nat) (p p' : Player)
    (hfind : ps.find? (fun q => q.id = pid) = some p)
    (hA : p'.isActive = p.isActive) (hF : p'.isFolded = p.isFolded) :
    ((setFirst pid p' ps).filter (fun q => q.isActive && !q.isFolded)).length
      = (ps.filter (fun q => q.isActive && !q.isFolded)).length := by
  induction ps with
  | nil => simp at hfind
  | cons q qs ih =>
    by_cases hq : q.id = pid
    · rw [List.find?_cons_of_pos _ (by simp [hq])] at hfind
      obtain rfl : q = p := by simpa using hfind
      simp only [setFirst, if_pos hq, List.filter_cons, hA, hF]
      split_ifs <;> simp
    · rw [List.find?_cons_of_neg _ (by simp [hq])] at hfind
      simp only [setFirst, if_neg hq, List.filter_cons]
      split_ifs <;> simp [ih hfind]

/-- `Player.bet` leaves the activity flags (and the id) unchanged. -/
theorem Player.bet_flags (p : Player) (a : ℚ) :
    (p.bet a).2.isActive = p.isActive ∧ (p.bet a).2.isFolded = p.isFolded ∧
    (p.bet a).2.id = p.id :=
  ⟨rfl, rfl, rfl⟩

/-- `betTail` succeeds whenever at least two active players remain. -/
theorem betTail_ok (g : Game) (pid : Nat) (player : Player) (amt : ℚ)
    (hfind : g.players.find? (fun q => q.id = pid) = some player)
    (h2 : 2 ≤ g.getActivePlayers.length) :
    ∃ g', betTail g pid player amt = .ok g' := by
  unfold betTail
  rcases hbet : player.bet amt with ⟨ba, p'⟩
  dsimp only
  have hflag : p'.isActive = player.isActive ∧ p'.isFolded = player.isFolded := by
    have := Player.bet_flags player amt
    rw [hbet] at this
    exact ⟨this.1, this.2.1⟩
  have h2' : 2 ≤ (Game.getActivePlayers
      { g with players := setFirst pid p' g.players, pot := g.pot + ba }).length := by
    show 2 ≤ ((setFirst pid p' g.players).filter (fun q => q.isActive && !q.isFolded)).length
    rw [filter_active_setFirst_length g.players pid player p' hfind hflag.1 hflag.2]
    exact h2
  obtain ⟨g'', hnp⟩ := nextPlayer_isSome _ h2'
  exact ⟨g'', by rw [hnp]⟩

/-- C4: for a `bet`/`chaal` by the current-turn player while the pot is
below the pot limit, in a live round (≥ 2 active players, so the turn can
advance): with `requiredAmount` = `currentBet` for a seen player and
`currentBet / 2` for a blind player, a player who can cover
`requiredAmount` succeeds iff the amount is exactly `requiredAmount` (call)
or `requiredAmount * 2` (raise), any other value being rejected with the
invalid-bet-amount error; a player whose stack is below `requiredAmount`
succeeds iff the amount is exactly the full remaining stack, any other
value being rejected with the all-in error. -/
theorem c4_bet_amount_validation (g : Game) (pid : Nat) (action : String) (amount : ℚ)
    (player current : Player)
    (hp : g.getPlayer pid = some player)
    (hc : g.getCurrentPlayer = some current)
    (hid : player.id = current.id)
    (hact : action = "bet" ∨ action = "chaal")
    (hpot : g.pot < g.minBet * 1024)
    (h2 : 2 ≤ g.getActivePlayers.length) :
    ((if player.isBlind then g.currentBet / 2 else g.currentBet) ≤ player.chips →
      ((∃ g', g.playerAction pid action amount = .ok g') ↔
        (amount = (if player.isBlind then g.currentBet / 2 else g.currentBet) ∨
         amount = (if player.isBlind then g.currentBet / 2 else g.currentBet) * 2)) ∧
      (amount ≠ (if player.isBlind then g.currentBet / 2 else g.currentBet) →
       amount ≠ (if player.isBlind then g.currentBet / 2 else g.currentBet) * 2 →
        g.playerAction pid action amount =
          .err (.invalidBetAmount
            (if player.isBlind then g.currentBet / 2 else g.currentBet)
            ((if player.isBlind then g.currentBet / 2 else g.currentBet) * 2)))) ∧
    (player.chips < (if player.isBlind then g.currentBet / 2 else g.currentBet) →
      ((∃ g', g.playerAction pid action amount = .ok g') ↔ amount = player.chips) ∧
      (amount ≠ player.chips →
        g.playerAction pid action amount = .err (.allInRequired player.chips))) := by
  rcases hact with rfl | rfl <;>
  · have hstep : ∀ act : String, ¬(act = "fold" ∨ act = "pack") → ¬act = "see" →
        (act = "bet" ∨ act = "chaal") → g.playerAction pid act amount =
        (if player.chips < (if player.isBlind then g.currentBet / 2 else g.currentBet) then
          (if amount ≠ player.chips then ActionResult.err (.allInRequired player.chips)
           else betTail g pid player amount)
         else
          (if amount ≠ (if player.isBlind then g.currentBet / 2 else g.currentBet) ∧
              amount ≠ (if player.isBlind then g.currentBet / 2 else g.currentBet) * 2 then
            ActionResult.err (.invalidBetAmount
              (if player.isBlind then g.currentBet / 2 else g.currentBet)
              ((if player.isBlind then g.currentBet / 2 else g.currentBet) * 2))
           else betTail
            { g with currentBet := max g.currentBet (if player.isBlind then amount * 2 else amount) }
            pid player amount)) := by
      intro act hnfold hnsee hbet
      unfold Game.playerAction
      rw [hp]
      dsimp only
      rw [hc]
      dsimp only
      rw [if_neg (by simp [hid]), if_neg hnfold, if_neg hnsee,
        if_pos hbet, if_neg (not_le.mpr hpot)]
    rw [hstep _ (by decide) (by decide) (by decide)]
    refine ⟨fun hge => ?_, fun hlt => ?_⟩
    · rw [if_neg (not_lt.mpr hge)]
      refine ⟨⟨?_, ?_⟩, ?_⟩
      · rintro ⟨g', hg'⟩
        by_contra hno
        push_neg at hno
        rw [if_pos ⟨hno.1, hno.2⟩] at hg'
        simp at hg'
      · intro hor
        rw [if_neg (fun hcon => hor.elim (fun h => hcon.1 h) (fun h => hcon.2 h))]
        exact betTail_ok _ pid player amount (by exact hp) (by exact h2)
      · intro hne1 hne2
        rw [if_pos ⟨hne1, hne2⟩]
    · rw [if_pos hlt]
      refine ⟨⟨?_, ?_⟩, ?_⟩
      · rintro ⟨g', hg'⟩
        by_contra hne
        rw [if_pos hne] at hg'
        simp at hg'
      · intro heq
        rw [if_neg (by simp [heq])]
        exact betTail_ok g pid player amount (by exact hp) h2
      · intro hne
        rw [if_pos hne]

/-- Witness for C4: in the concrete live room the blind current player
(required call 5) successfully raises with amount 10 = 5 × 2. -/
theorem c4_bet_amount_validation_witness :
    ∃ g', roomLive.playerAction 1 "bet" 10 = .ok g' :=
  ((c4_bet_amount_validation roomLive 1 "bet" 10 roomLiveP1 roomLiveP1
      (by decide) (by decide) rfl (Or.inl rfl) (by norm_num [roomLive])
      (by decide)).1 (by norm_num [roomLive, roomLiveP1])).1.mpr
    (Or.inr (by norm_num [roomLive, roomLiveP1]))

/-! ### Contract settlement: idempotency (C7) -/

/-- C7: both settlement entry points require an ACTIVE room and move it
to FINISHED, so a second settlement attempt of either kind fails with the
"Game not active" revert; the model is pure, so the failing second call
returns only the error and leaves the first call's result (room state and
payouts) untouched. -/
theorem c7_settlement_idempotent
    (room : Contract.Room) (rakeFee : Nat) (ps chips : List Nat) (w : Nat) :
    (∀ r : Contract.SettleResult, Contract.settleCashGame room rakeFee ps chips = .ok r →
      room.state = Contract.GameState.ACTIVE ∧
      r.room.state = Contract.GameState.FINISHED ∧
      (∀ ps' chips', Contract.settleCashGame r.room rakeFee ps' chips'
        = .error "Game not active") ∧
      (∀ w', Contract.declareWinner r.room rakeFee w' = .error "Game not active")) ∧
    (∀ (room' : Contract.Room) (amts : Nat × Nat),
      Contract.declareWinner room rakeFee w = .ok (room', amts) →
      room.state = Contract.GameState.ACTIVE ∧
      room'.state = Contract.GameState.FINISHED ∧
      (∀ ps' chips', Contract.settleCashGame room' rakeFee ps' chips'
        = .error "Game not active") ∧
      (∀ w', Contract.declareWinner room' rakeFee w' = .error "Game not active")) := by
  constructor
  · intro r h
    unfold Contract.settleCashGame at h
    split_ifs at h with h1 h2 h3 h4 h5 h6 <;> try simp at h
    rcases ps with _ | ⟨p0, ptl⟩
    · simp at h3
    rcases chips with _ | ⟨c0, ctl⟩
    · simp at h2
    dsimp only at h
    obtain rfl : _ = r := by simpa using h
    refine ⟨not_not.mp h1, rfl, fun ps' chips' => ?_, fun w' => ?_⟩
    · unfold Contract.settleCashGame
      rw [if_pos (by simp)]
    · unfold Contract.declareWinner
      rw [if_pos (by simp)]
  · intro room' amts h
    unfold Contract.declareWinner at h
    split_ifs at h with h1 h2 h3 <;> try simp at h
    obtain ⟨rfl, -⟩ : _ = room' ∧ _ := by simpa using h
    refine ⟨not_not.mp h1, rfl, fun ps' chips' => ?_, fun w' => ?_⟩
    · unfold Contract.settleCashGame
      rw [if_pos (by simp)]
    · unfold Contract.declareWinner
      rw [if_pos (by simp)]

/-- Witness for C7: settling the concrete ACTIVE cash room succeeds once
and then both settlement calls reject. -/
theorem c7_settlement_idempotent_witness :
    Contract.cashRoom.state = Contract.GameState.ACTIVE ∧
    (∀ ps' chips', Contract.settleCashGame
      { Contract.cashRoom with state := Contract.GameState.FINISHED, winner := 1, pot := 0 }
      500 ps' chips' = .error "Game not active") := by
  have h := (c7_settlement_idempotent Contract.cashRoom 500 [1, 2, 3] [5000, 3000, 2000] 1).1
    { room := { Contract.cashRoom with
        state := Contract.GameState.FINISHED, winner := 1, pot := 0 },
      payouts := [475, 285, 190], rake := 50, dust := 0, dustRecipient := 1 }
    (by rfl)
  exact ⟨h.1, h.2.2.1⟩

/-! ### The settlement verification gate (C9) -/

/-- Counterexample to C9: the gate accepts a submission whose player set
differs from the room's — listing player 0 twice (with correct chips) in
place of player 1 passes both the length check and the per-entry
`find`-based check, and the endpoint then proceeds, settling with the
authoritative counts (a silent correction, not a rejection). -/
theorem c9_counterexample :
    Server.verifyChips [⟨0, 990⟩, ⟨0, 990⟩] (Server.realChipCounts roomLive) = true ∧
    (Server.realChipCounts roomLive).map Server.ChipCount.id = [0, 1] ∧
    ([⟨0, 990⟩, ⟨0, 990⟩] : List Server.ChipCount).map Server.ChipCount.id = [0, 0] ∧
    Server.settleEndpoint roomLive [⟨0, 990⟩, ⟨0, 990⟩]
      = some (Server.realChipCounts roomLive) :=
  ⟨by decide, by decide, by decide, by decide⟩

/-- C9 (amended): the gate rejects unless the submitted list has the
same length as the room's player list and every submitted entry matches
some room player by id with exactly equal chips.  (This does not force the
submitted player set to equal the room's set — a duplicated id passes, see
the counterexample — and on success the on-chain call uses the
authoritative chip counts, not the submitted ones.) -/
theorem c9_verification_soundness (g : Game) (submitted : List Server.ChipCount) :
    Server.verifyChips submitted (Server.realChipCounts g) = true →
      submitted.length = g.players.length ∧
      ∀ s ∈ submitted, ∃ p ∈ g.players, p.id = s.id ∧ p.chips = s.chips := by
  intro h
  unfold Server.verifyChips at h
  rw [Bool.and_eq_true] at h
  obtain ⟨hlen, hall⟩ := h
  constructor
  · simpa [Server.realChipCounts] using hlen
  · intro s hs
    have hmatch := List.all_eq_true.mp hall s hs
    rcases hfind : (Server.realChipCounts g).find? (fun r => r.id = s.id) with _ | r
    · rw [hfind] at hmatch
      simp at hmatch
    · rw [hfind] at hmatch
      dsimp only at hmatch
      have hchips : r.chips = s.chips := by simpa using hmatch
      have hrmem : r ∈ Server.realChipCounts g := List.mem_of_find?_eq_some hfind
      have hrid : r.id = s.id := by simpa using List.find?_some hfind
      rcases List.mem_map.mp hrmem with ⟨p, hp, rfl⟩
      exact ⟨p, hp, by simpa using hrid, by simpa using hchips⟩

/-- Witness for C9: the honest submission for the concrete live room
passes the gate and indeed matches the room exactly. -/
theorem c9_verification_soundness_witness :
    ([⟨0, 990⟩, ⟨1, 990⟩] : List Server.ChipCount).length = roomLive.players.length ∧
    ∀ s ∈ ([⟨0, 990⟩, ⟨1, 990⟩] : List Server.ChipCount),
      ∃ p ∈ roomLive.players, p.id = s.id ∧ p.chips = s.chips :=
  c9_verification_soundness roomLive [⟨0, 990⟩, ⟨1, 990⟩] (by decide)

/-! ### Contract settlement: proportional payouts, rake and dust (C2) -/

/-- The settlement loop pays each entry `distributablePot * chips / totalChips`
(floor) and totals exactly the sum of those payouts. -/
theorem settleScan_payouts (dp tc : Nat) (l : List (Nat × Nat)) :
    ∀ top maxC : Nat,
      (Contract.settleScan dp tc l top maxC).2.1 = l.map (fun pc => dp * pc.2 / tc) ∧
      (Contract.settleScan dp tc l top maxC).2.2
        = (l.map (fun pc => dp * pc.2 / tc)).sum := by
  induction l with
  | nil => intro top maxC; simp [Contract.settleScan]
  | cons pc rest ih =>
    intro top maxC
    simp only [Contract.settleScan, List.map_cons, List.sum_cons]
    constructor
    · rw [(ih _ _).1]
    · rw [(ih _ _).2]

/-- The running `topPlayer`/`maxChips` pair of the settlement loop ends at
the accumulator if nothing beats it, or at the FIRST list entry that
strictly exceeds the accumulator and is never strictly exceeded later. -/
theorem settleScan_top_spec (dp tc : Nat) (l : List (Nat × Nat)) :
    ∀ top maxC : Nat,
      ((Contract.settleScan dp tc l top maxC).1 = top ∧
        ∀ i pc, l.get? i = some pc → pc.2 ≤ maxC) ∨
      (∃ i pc, l.get? i = some pc ∧ (Contract.settleScan dp tc l top maxC).1 = pc.1 ∧
        maxC < pc.2 ∧
        (∀ j qc, j < i → l.get? j = some qc → qc.2 < pc.2) ∧
        (∀ j qc, l.get? j = some qc → qc.2 ≤ pc.2)) := by
  induction l with
  | nil =>
    intro top maxC
    left
    refine ⟨rfl, fun i pc h => ?_⟩
    simp at h
  | cons pc0 rest ih =>
    intro top maxC
    simp only [Contract.settleScan]
    by_cases hgt : maxC < pc0.2
    · rw [if_pos hgt, if_pos hgt]
      rcases ih pc0.1 pc0.2 with ⟨hres, hbound⟩ | ⟨i, pc, hget, hres, hlt, hearl, hall⟩
      · right
        refine ⟨0, pc0, rfl, hres, hgt, fun j qc hj _ => by omega, fun j qc hget' => ?_⟩
        rcases j with _ | j
        · obtain rfl : pc0 = qc := by simpa using hget'
          omega
        · exact hbound j qc (by simpa using hget')
      · right
        refine ⟨i + 1, pc, by simpa using hget, hres, by omega, ?_, ?_⟩
        · intro j qc hj hget'
          rcases j with _ | j
          · obtain rfl : pc0 = qc := by simpa using hget'
            omega
          · exact hearl j qc (by omega) (by simpa using hget')
        · intro j qc hget'
          rcases j with _ | j
          · obtain rfl : pc0 = qc := by simpa using hget'
            omega
          · exact hall j qc (by simpa using hget')
    · rw [if_neg hgt, if_neg hgt]
      rcases ih top maxC with ⟨hres, hbound⟩ | ⟨i, pc, hget, hres, hlt, hearl, hall⟩
      · left
        refine ⟨hres, fun j qc hget' => ?_⟩
        rcases j with _ | j
        · obtain rfl : pc0 = qc := by simpa using hget'
          omega
        · exact hbound j qc (by simpa using hget')
      · right
        refine ⟨i + 1, pc, by simpa using hget, hres, hlt, ?_, ?_⟩
        · intro j qc hj hget'
          rcases j with _ | j
          · obtain rfl : pc0 = qc := by simpa using hget'
            omega
          · exact hearl j qc (by omega) (by simpa using hget')
        · intro j qc hget'
          rcases j with _ | j
          · obtain rfl : pc0 = qc := by simpa using hget'
            omega
          · exact hall j qc (by simpa using hget')

/-- Floor division distributes sub-additively over addition. -/
theorem nat_div_add_div_le (a b c : Nat) : a / c + b / c ≤ (a + b) / c := by
  rcases Nat.eq_zero_or_pos c with rfl | hc
  · simp
  · rw [Nat.le_div_iff_mul_le hc, Nat.add_mul]
    exact Nat.add_le_add (Nat.div_mul_le_self a c) (Nat.div_mul_le_self b c)

/-- The floor payouts never exceed the distributable pot. -/
theorem payouts_sum_le (dp tc : Nat) (l : List Nat) (htc : l.sum = tc) (htc0 : 0 < tc) :
    (l.map (fun c => dp * c / tc)).sum ≤ dp := by
  have key : ∀ m : List Nat, (m.map (fun c => dp * c / tc)).sum ≤ dp * m.sum / tc := by
    intro m
    induction m with
    | nil => simp
    | cons c rest ihm =>
      simp only [List.map_cons, List.sum_cons, List.sum_cons, Nat.mul_add]
      calc dp * c / tc + (rest.map (fun c => dp * c / tc)).sum
          ≤ dp * c / tc + dp * rest.sum / tc := Nat.add_le_add_left ihm _
        _ ≤ (dp * c + dp * rest.sum) / tc := nat_div_add_div_le _ _ _
  calc (l.map (fun c => dp * c / tc)).sum ≤ dp * l.sum / tc := key l
    _ = dp := by rw [htc, Nat.mul_div_cancel _ htc0]

/-- C2: a successful on-chain cash settlement takes
`rake = floor(pot * rakeBps / 10000)`, pays each player
`floor(distributable * chips_i / totalChips)` where
`distributable = pot - rake`, and the dust `distributable - sum(payouts)`
goes entirely to the first player in input order holding the maximal chip
count (who is also recorded as the room's winner), so payouts plus dust sum
exactly to the distributable pot; in particular for chips
`[5000, 3000, 2000]`, pot 1000 and 500 bps the payouts are
`[475, 285, 190]` with rake 50 and zero dust. -/
theorem c2_cash_settlement_payouts :
    (∀ (room : Contract.Room) (rakeFee : Nat) (ps chips : List Nat)
        (r : Contract.SettleResult),
      Contract.settleCashGame room rakeFee ps chips = .ok r →
      r.rake = room.pot * rakeFee / 10000 ∧
      r.payouts = chips.map (fun c => (room.pot - r.rake) * c / chips.sum) ∧
      r.payouts.sum + r.dust = room.pot - r.rake ∧
      r.room.winner = r.dustRecipient ∧
      (∃ i M, (ps.zip chips).get? i = some (r.dustRecipient, M) ∧
        (∀ j qc, (ps.zip chips).get? j = some qc → qc.2 ≤ M) ∧
        (∀ j qc, j < i → (ps.zip chips).get? j = some qc → qc.2 < M))) ∧
    (Contract.settleCashGame Contract.cashRoom 500 [1, 2, 3] [5000, 3000, 2000]).map
        (fun r => (r.payouts, r.rake, r.dust, r.dustRecipient))
      = .ok ([475, 285, 190], 50, 0, 1) := by
  constructor
  · intro room rakeFee ps chips r h
    unfold Contract.settleCashGame at h
    split_ifs at h with h1 h2 h3 h4 h5 h6 <;> try simp at h
    rcases ps with _ | ⟨p0, ptl⟩
    · simp at h3
    rcases chips with _ | ⟨c0, ctl⟩
    · simp at h2
    dsimp only at h
    obtain rfl := Except.ok.inj h
    dsimp only
    have hlen : (p0 :: ptl).length = (c0 :: ctl).length := not_not.mp h2
    have hzipmap : ∀ f : Nat → Nat,
        ((p0 :: ptl).zip (c0 :: ctl)).map (fun pc => f pc.2) = (c0 :: ctl).map f := by
      intro f
      have hsnd : ((p0 :: ptl).zip (c0 :: ctl)).map Prod.snd = c0 :: ctl :=
        List.map_snd_zip _ _ (le_of_eq hlen.symm)
      calc ((p0 :: ptl).zip (c0 :: ctl)).map (fun pc => f pc.2)
          = (((p0 :: ptl).zip (c0 :: ctl)).map Prod.snd).map f := by
            rw [List.map_map]
            rfl
        _ = (c0 :: ctl).map f := by rw [hsnd]
    have hpay := settleScan_payouts (room.pot - room.pot * rakeFee / 10000)
      ((c0 :: ctl).sum) ((p0 :: ptl).zip (c0 :: ctl)) p0 c0
    have hsum0 : 0 < (c0 :: ctl).sum := Nat.pos_of_ne_zero h5
    have hzips : ((p0 :: ptl).zip (c0 :: ctl)).map
          (fun pc => (room.pot - room.pot * rakeFee / 10000) * pc.2 / (c0 :: ctl).sum)
        = (c0 :: ctl).map
          (fun c => (room.pot - room.pot * rakeFee / 10000) * c / (c0 :: ctl).sum) :=
      hzipmap (fun c => (room.pot - room.pot * rakeFee / 10000) * c / (c0 :: ctl).sum)
    refine ⟨rfl, ?_, ?_, rfl, ?_⟩
    · show (Contract.settleScan _ _ _ p0 c0).2.1 = _
      rw [hpay.1]
      exact hzips
    · show (Contract.settleScan _ _ _ p0 c0).2.1.sum
          + (_ - (Contract.settleScan _ _ _ p0 c0).2.2) = _
      rw [hpay.1, hpay.2, hzips]
      have hle := payouts_sum_le (room.pot - room.pot * rakeFee / 10000)
        ((c0 :: ctl).sum) (c0 :: ctl) rfl hsum0
      omega
    · rcases settleScan_top_spec (room.pot - room.pot * rakeFee / 10000)
          ((c0 :: ctl).sum) ((p0 :: ptl).zip (c0 :: ctl)) p0 c0 with
        ⟨hres, hbound⟩ | ⟨i, pc, hget, hres, hlt, hearl, hall⟩
      · refine ⟨0, c0, ?_, fun j qc hq => hbound j qc hq, fun j qc hj _ => by omega⟩
        rw [hres]
        rfl
      · refine ⟨i, pc.2, ?_, hall, hearl⟩
        show ((p0 :: ptl).zip (c0 :: ctl)).get? i = some (_, pc.2)
        rw [hget, hres]
  · rfl

/-- Witness for C2: the concrete settlement of the 1000-pot room at 500
bps distributes exactly the 950 distributable tokens. -/
theorem c2_cash_settlement_payouts_witness :
    Contract.cashResult.payouts.sum + Contract.cashResult.dust
      = Contract.cashRoom.pot - Contract.cashResult.rake :=
  (c2_cash_settlement_payouts.1 Contract.cashRoom 500 [1, 2, 3] [5000, 3000, 2000]
    Contract.cashResult rfl).2.2.1

end ThreePatti
